import Mathlib

/-!
Verification of the Shaka provider adapter
(`packages/vidstack/src/providers/shaka/{shaka,provider,lib-loader}.ts`).

The adapter is shallowly embedded: pure projections (track-list mapping,
event-name translation) become Lean functions; the stateful lifecycle
methods become functions from their inputs to explicit traces of the
actions they perform (library calls, listener attachment, host
notifications), in the order the source performs them.

JavaScript semantics used throughout:
  * `x || d` on numbers/strings/booleans falls through on any falsy
    value (`undefined`, `null`, `0`, `""`, `false`), modelled by the
    `jsOr*` helpers;
  * `Map.set` keeps insertion order and updates in place;
  * `Array.prototype.find` returns the first match;
  * template interpolation of an integer produces its decimal digits,
    modelled by `natToString`.
-/

/-! ### JavaScript truthiness helpers -/

/-- JS `x || d` for an optional number (`undefined`/`null`/`0` are falsy). -/
def jsOrNat (x : Option Nat) (d : Nat) : Nat :=
  match x with
  | none => d
  | some n => if n = 0 then d else n

/-- JS truthiness of an optional number. -/
def jsTruthyNat (x : Option Nat) : Bool :=
  match x with
  | none => false
  | some n => n != 0

/-- JS `s || d` for a string (`""` is falsy). -/
def jsOrStr (s d : String) : String :=
  if s = "" then d else s

/-- JS `x || d` for an optional string. -/
def jsOrOptStr (x : Option String) (d : String) : String :=
  match x with
  | none => d
  | some s => jsOrStr s d

/-- JS `x || false` for an optional boolean. -/
def jsOrBool (x : Option Bool) : Bool := x.getD false

/-! ### Decimal printing of a JS integer (template interpolation) -/

/-- Little-endian decimal digits, with structural fuel (the fuel never
runs out when it starts at `n`, since the digit count of `n` is at most
`n + 1`). -/
def natDigitsLEAux : Nat → Nat → List Nat
  | 0, n => [n]
  | fuel + 1, n => if n < 10 then [n] else n % 10 :: natDigitsLEAux fuel (n / 10)

/-- Little-endian decimal digits of `n` (`0` prints as `"0"`, so the
digit list of `0` is `[0]`). -/
def natDigitsLE (n : Nat) : List Nat := natDigitsLEAux n n

/-- Decimal digit to character. -/
def digitToChar (d : Nat) : Char := Char.ofNat (48 + d)

/-- JS decimal rendering of a nonnegative integer. -/
def natToString (n : Nat) : String :=
  ⟨((natDigitsLE n).reverse.map digitToChar)⟩

/-! ### Shaka track records (`types.ts`) -/

/-- A Shaka variant track (video+audio quality combination), restricted
to the fields the adapter reads.  Optional/nullable fields are `Option`. -/
structure ShakaVariantTrack where
  id : Nat
  active : Bool
  bandwidth : Nat
  language : String
  label : Option String
  kind : Option String
  width : Option Nat
  height : Option Nat
  codecs : Option String
  videoCodec : Option String
deriving DecidableEq

/-- A Shaka text track, restricted to the fields the adapter reads. -/
structure ShakaTextTrack where
  id : Nat
  active : Bool
  language : String
  label : Option String
  kind : Option String
  primary : Option Bool
deriving DecidableEq

/-- A Shaka audio language/role pair. -/
structure ShakaLanguageRole where
  language : String
  role : String
  label : Option String
deriving DecidableEq

/-! ### Host-side track records -/

/-- A host video quality, as assembled by `#updateQualityTracks`. -/
structure VideoQuality where
  id : String
  width : Nat
  height : Nat
  bitrate : Nat
  codec : String
  index : Nat
deriving DecidableEq

/-- A host audio track, as assembled by `#updateAudioTracks`. -/
structure AudioTrack where
  id : String
  label : String
  language : String
  kind : String
deriving DecidableEq

/-- A host text track, as assembled by `#updateTextTracks`. -/
structure HostTextTrack where
  id : String
  label : String
  language : String
  kind : String
  isDefault : Bool
deriving DecidableEq

/-! ### `#updateQualityTracks` (shaka.ts lines 186-231) -/

/-- `track.height && track.width` (both present and nonzero). -/
def hasResolution (t : ShakaVariantTrack) : Bool :=
  jsTruthyNat t.height && jsTruthyNat t.width

/-- One `uniqueQualities` update: JS `Map` keyed by the string of the
height, updated in place when the key exists (only if the new bandwidth
is strictly larger), appended otherwise. -/
def updateUnique : List ShakaVariantTrack → ShakaVariantTrack → List ShakaVariantTrack
  | [], t => [t]
  | u :: rest, t =>
    if u.height = t.height then
      (if t.bandwidth > u.bandwidth then t else u) :: rest
    else
      u :: updateUnique rest t

/-- The grouping loop: tracks without a (truthy) resolution are skipped,
the rest update the map. -/
def groupByResolution (ts : List ShakaVariantTrack) : List ShakaVariantTrack :=
  ts.foldl (fun m t => if hasResolution t then updateUnique m t else m) []

/-- The sort comparator `(b.height || 0) - (a.height || 0)` orders by
height descending. -/
def heightGe (a b : ShakaVariantTrack) : Prop :=
  jsOrNat b.height 0 ≤ jsOrNat a.height 0

instance : DecidableRel heightGe := fun _ _ => Nat.decLe _ _

instance : IsTotal ShakaVariantTrack heightGe :=
  ⟨fun a b => Nat.le_total (jsOrNat b.height 0) (jsOrNat a.height 0)⟩

instance : IsTrans ShakaVariantTrack heightGe :=
  ⟨fun _ _ _ h1 h2 => Nat.le_trans h2 h1⟩

/-- `Array.from(uniqueQualities.values()).sort((a, b) => (b.height || 0) - (a.height || 0))`. -/
def sortByHeightDesc (ts : List ShakaVariantTrack) : List ShakaVariantTrack :=
  ts.insertionSort heightGe

/-- The quality object built at position `i` of the sorted list. -/
def mkQuality (i : Nat) (t : ShakaVariantTrack) : VideoQuality :=
  { id := "shaka-quality-" ++ natToString t.id
  , width := jsOrNat t.width 0
  , height := jsOrNat t.height 0
  , bitrate := jsOrNat (some t.bandwidth) 0
  , codec := jsOrOptStr t.videoCodec (jsOrOptStr t.codecs "")
  , index := i }

/-- The indexed quality-building loop. -/
def mkQualities (i : Nat) : List ShakaVariantTrack → List VideoQuality
  | [] => []
  | t :: ts => mkQuality i t :: mkQualities (i + 1) ts

/-- `#updateQualityTracks`: the list of qualities added to
`ctx.qualities`, in order. -/
def updateQualityTracks (ts : List ShakaVariantTrack) : List VideoQuality :=
  mkQualities 0 (sortByHeightDesc (groupByResolution ts))

/-! ### `#updateAudioTracks` (shaka.ts lines 233-248)

`getLangName` lives in `utils/language.ts` (outside the shaka module);
it is passed as an explicit parameter.  It only affects labels, which no
claim constrains. -/

/-- The audio track built for `langRole` at position `index`. -/
def mkAudioTrack (gln : String → Option String) (i : Nat) (lr : ShakaLanguageRole) :
    AudioTrack :=
  { id := "shaka-audio-" ++ natToString i
  , label := jsOrOptStr lr.label (jsOrOptStr (gln lr.language) (jsOrStr lr.language ""))
  , language := jsOrStr lr.language ""
  , kind := jsOrStr lr.role "main" }

/-- The indexed `forEach` loop of `#updateAudioTracks`. -/
def mkAudioTracks (gln : String → Option String) (i : Nat) :
    List ShakaLanguageRole → List AudioTrack
  | [] => []
  | lr :: rest => mkAudioTrack gln i lr :: mkAudioTracks gln (i + 1) rest

/-- `#updateAudioTracks`: the audio tracks added to `ctx.audioTracks`. -/
def updateAudioTracks (gln : String → Option String) (roles : List ShakaLanguageRole) :
    List AudioTrack :=
  mkAudioTracks gln 0 roles

/-! ### `#updateTextTracks` (shaka.ts lines 250-282) -/

/-- The host text track built for a Shaka text track. -/
def mkTextTrack (gln : String → Option String) (st : ShakaTextTrack) : HostTextTrack :=
  { id := "shaka-text-" ++ natToString st.id
  , label := jsOrOptStr st.label (jsOrOptStr (gln st.language) (jsOrStr st.language ""))
  , language := jsOrStr st.language ""
  , kind := jsOrOptStr st.kind "subtitles"
  , isDefault := jsOrBool st.primary }

/-- `#updateTextTracks`: the text tracks added to `ctx.textTracks`. -/
def updateTextTracks (gln : String → Option String) (ts : List ShakaTextTrack) :
    List HostTextTrack :=
  ts.map (mkTextTrack gln)

/-! ### Errors (`#onError`, `#onFatalError`, shaka.ts lines 307-333) -/

/-- A Shaka error object (`shaka.util.Error`), restricted to the fields
the adapter reads.  Shaka error codes are natural numbers. -/
structure ShakaError where
  severity : Nat
  category : Nat
  code : Nat
  message : Option String
deriving DecidableEq

/-- The payload handed to `ctx.notify('error', ...)` by `#onFatalError`. -/
structure ErrorNoticePayload where
  message : String
  code : Nat
  error : ShakaError
deriving DecidableEq

/-- `#onFatalError`: builds the host error notification. -/
def onFatalError (err : ShakaError) : ErrorNoticePayload :=
  { message := jsOrOptStr err.message ("Shaka error code: " ++ natToString err.code)
  , code := 1
  , error := err }

/-- `#onError`: returns the notification sent for an `error` event with
the given `detail` (`none` when the event has no detail, in which case
the handler returns without notifying). -/
def onShakaError (detail : Option ShakaError) : Option ErrorNoticePayload :=
  match detail with
  | none => none
  | some err => some (onFatalError err)

/-! ### `loadSource` (shaka.ts lines 423-445) -/

/-- A value thrown by `instance.load` (an arbitrary JS value; `isError`
records whether it is an `Error` instance). -/
structure JsThrown where
  isError : Bool
  message : String
deriving DecidableEq

/-- An action performed by `ShakaController.loadSource`. -/
inductive LoadAction where
  | load (src : String)
  | notifyError (message : String) (code : Nat) (error : JsThrown)
deriving DecidableEq

/-- `loadSource`: `src` is `none` when `src.src` is not a string,
`instPresent` is whether `#instance` is non-null, and `loadResult`
gives the outcome of `instance.load`. -/
def loadSource (src : Option String) (instPresent : Bool)
    (loadResult : String → Except JsThrown Unit) : List LoadAction :=
  match src with
  | none => []
  | some s =>
    if instPresent then
      match loadResult s with
      | Except.ok _ => [LoadAction.load s]
      | Except.error e =>
        [LoadAction.load s,
         LoadAction.notifyError (if e.isError then e.message else "Failed to load source") 1 e]
    else []

/-! ### Event name translation (shaka.ts line 26)

`camelToKebabCase` comes from `maverick.js/std` (an external
dependency): it inserts a dash between a lowercase letter and the
uppercase letter following it, then lowercases the string. -/

/-- Character-level kebab-casing, carrying the previous character. -/
def camelToKebabChars : Option Char → List Char → List Char
  | _, [] => []
  | prev, c :: rest =>
    if (match prev with | some p => p.isLower | none => false) && c.isUpper then
      '-' :: c.toLower :: camelToKebabChars (some c) rest
    else
      c.toLower :: camelToKebabChars (some c) rest

/-- `camelToKebabCase` from `maverick.js/std`. -/
def camelToKebabCase (s : String) : String :=
  ⟨camelToKebabChars none s.data⟩

/-- `` toDOMEventType = (type) => `shaka-${camelToKebabCase(type)}` ``. -/
def toDOMEventType (t : String) : String :=
  "shaka-" ++ camelToKebabCase t

/-- The Shaka event types subscribed with the generic forwarder
(shaka.ts lines 52-64). -/
def forwardedEvents : List String :=
  ["buffering", "loading", "loaded", "unloading", "adaptation", "trackschanged",
   "variantchanged", "textchanged", "texttrackvisibility", "streaming", "manifestparsed"]

/-! ### Event handler actions (C6) -/

/-- An action a Shaka event handler performs on the host side. -/
inductive HostAction where
  | playerDispatch (type : String) (detail : Nat)
  | notify (name : String)
  | videoDispatch (type : String)
  | qualitySetAuto
  | qualityAdd (q : VideoQuality)
  | qualitySelect (q : VideoQuality)
  | audioAdd (t : AudioTrack)
  | textAdd (t : HostTextTrack)
deriving DecidableEq

/-- Whether an action dispatches an event on the host player element. -/
def isPlayerDispatch : HostAction → Bool
  | HostAction.playerDispatch _ _ => true
  | _ => false

/-- The host state an incoming Shaka event is handled against.
`eventRef` identifies the original Shaka event object. -/
structure EventCtx where
  eventRef : Nat
  buffering : Bool
  canPlay : Bool
  instPresent : Bool
  isLive : Bool
  seekStart : Int
  seekEnd : Int
  variantTracks : List ShakaVariantTrack
  audioRoles : List ShakaLanguageRole
  textTracks : List ShakaTextTrack
  ctxQualities : List VideoQuality
  newTrack : Option ShakaVariantTrack
  newTrackIsVariant : Bool

/-- `#dispatchShakaEvent`: re-dispatch on the player with the translated
type and the original event as detail. -/
def forwarderActions (t : String) (e : EventCtx) : List HostAction :=
  [HostAction.playerDispatch (toDOMEventType t) e.eventRef]

/-- `#updateQualityTracks` as performed actions: the adds, then the
selection of the active quality (`ctxQualities` is
`ctx.qualities.toArray()` at selection time). -/
def updateQualityTracksActions (instPresent : Bool) (ts : List ShakaVariantTrack)
    (ctxQualities : List VideoQuality) : List HostAction :=
  if !instPresent then []
  else
    (updateQualityTracks ts).map HostAction.qualityAdd
    ++ (match ts.find? (fun t => t.active) with
        | none => []
        | some act =>
          match ctxQualities.find? (fun q => act.height = some q.height) with
          | none => []
          | some q => [HostAction.qualitySelect q])

/-- `#onBuffering`: notifies `waiting` while buffering. -/
def onBufferingActions (buffering : Bool) : List HostAction :=
  if buffering then [HostAction.notify "waiting"] else []

/-- `#onAdaptation`: selects the host quality matching the new variant. -/
def onAdaptationActions (newTrack : Option ShakaVariantTrack) (isVariant : Bool)
    (ctxQualities : List VideoQuality) : List HostAction :=
  match newTrack with
  | none => []
  | some nt =>
    if !isVariant then []
    else
      match ctxQualities.find? (fun q => nt.height = some q.height) with
      | none => []
      | some q => [HostAction.qualitySelect q]

/-- `#onTracksChanged`: re-syncs qualities only when none exist yet. -/
def onTracksChangedActions (instPresent : Bool) (ts : List ShakaVariantTrack)
    (ctxQualities : List VideoQuality) : List HostAction :=
  if ctxQualities.length = 0 then updateQualityTracksActions instPresent ts ctxQualities
  else []

/-- `#onLoaded`: stream-type/duration notifications, auto-quality, the
three track projections, then `canplay` on the video element. -/
def onLoadedActions (gln : String → Option String) (e : EventCtx) : List HostAction :=
  if e.canPlay || !e.instPresent then []
  else
    [HostAction.notify "stream-type-change"]
    ++ (if e.isLive && e.seekEnd - e.seekStart > 0 then [HostAction.notify "duration-change"]
        else [])
    ++ [HostAction.qualitySetAuto]
    ++ updateQualityTracksActions e.instPresent e.variantTracks e.ctxQualities
    ++ (updateAudioTracks gln e.audioRoles).map HostAction.audioAdd
    ++ (updateTextTracks gln e.textTracks).map HostAction.textAdd
    ++ [HostAction.videoDispatch "canplay"]

/-- All actions performed on receipt of a Shaka event of type `t`, in
listener-attachment order (forwarder first, then the specific handlers;
shaka.ts lines 66-112). -/
def eventActions (gln : String → Option String) (t : String) (e : EventCtx) :
    List HostAction :=
  (if t ∈ forwardedEvents then forwarderActions t e else [])
  ++ (if t = "adaptation" then
        onAdaptationActions e.newTrack e.newTrackIsVariant e.ctxQualities else [])
  ++ (if t = "trackschanged" then
        onTracksChangedActions e.instPresent e.variantTracks e.ctxQualities else [])
  ++ (if t = "loaded" then onLoadedActions gln e else [])
  ++ (if t = "buffering" then onBufferingActions e.buffering else [])

/-! ### Setup lifecycle (provider.ts 252-261, lib-loader, shaka.ts 47-121) -/

/-- One step of the setup lifecycle. -/
inductive SetupStep where
  | loadLibrary
  | construct
  | addForwardListener (event : String)
  | addErrorListener
  | invokeCallback (cb : Nat)
  | dispatchInstanceEvent
  | configure
  | registerReqFilter
  | registerResFilter
  | addHandlerListener (event : String)
  | setAutoQualityHook
  | listenQualityChange
  | listenAudioChange
  | startLiveSyncEffect
  | notifyProviderSetup
  | loadSourceStep (src : String)
deriving DecidableEq

/-- The provider configuration (`ShakaProviderConfig`): each field is an
opaque object/function, present or not (objects and functions are always
truthy in JS). -/
structure ShakaConfigModel where
  config : Option Nat
  requestFilter : Option Nat
  responseFilter : Option Nat
deriving DecidableEq

/-- `ShakaController.setup`, as the ordered trace of what it performs
(shaka.ts lines 47-121).  `callbacks` is the registered `onInstance`
callback set in insertion order, `enginePresent` is whether
`getNetworkingEngine()` returned a non-null engine. -/
def controllerSetup (cfg : ShakaConfigModel) (callbacks : List Nat)
    (enginePresent : Bool) : List SetupStep :=
  [SetupStep.construct]
  ++ forwardedEvents.map SetupStep.addForwardListener
  ++ [SetupStep.addErrorListener]
  ++ callbacks.map SetupStep.invokeCallback
  ++ [SetupStep.dispatchInstanceEvent]
  ++ (match cfg.config with
      | some _ => [SetupStep.configure]
      | none => [])
  ++ (if enginePresent then
        (match cfg.requestFilter with
         | some _ => [SetupStep.registerReqFilter]
         | none => [])
        ++ (match cfg.responseFilter with
            | some _ => [SetupStep.registerResFilter]
            | none => [])
      else [])
  ++ [SetupStep.addHandlerListener "adaptation", SetupStep.addHandlerListener "trackschanged",
      SetupStep.addHandlerListener "loaded", SetupStep.addHandlerListener "buffering"]
  ++ [SetupStep.setAutoQualityHook, SetupStep.listenQualityChange,
      SetupStep.listenAudioChange, SetupStep.startLiveSyncEffect]

/-- `ShakaProvider.setup` (successful library load): the lib loader
loads the library, then its callback runs `controller.setup`, notifies
`provider-setup`, and loads the pending source if any
(provider.ts lines 252-261). -/
def providerSetup (cfg : ShakaConfigModel) (callbacks : List Nat) (enginePresent : Bool)
    (src : Option String) : List SetupStep :=
  SetupStep.loadLibrary :: controllerSetup cfg callbacks enginePresent
  ++ [SetupStep.notifyProviderSetup]
  ++ (match src with
      | some s => [SetupStep.loadSourceStep s]
      | none => [])

/-- `stepPrecedes a b t`: somewhere after the first occurrence of `a`
in `t` there is an occurrence of `b`. -/
def stepPrecedes (a b : SetupStep) : List SetupStep → Bool
  | [] => false
  | s :: rest => if s = a then rest.any (fun x => decide (x = b)) else stepPrecedes a b rest

/-! ### `#onUserQualityChange` (shaka.ts lines 346-376) -/

/-- The host quality-list state read by the handler. -/
structure QualitiesState where
  auto : Bool
  selected : Option VideoQuality
  switchMode : String
deriving DecidableEq

/-- A call the handler makes (the Chrome keyframe workaround touches the
video element, not the library). -/
inductive LibCall where
  | configureAbr (enabled : Bool)
  | selectVariantTrack (t : ShakaVariantTrack) (clearBuffer : Bool)
  | chromeSeekHack
deriving DecidableEq

/-- `#onUserQualityChange`: `instTracks` is `getVariantTracks()` when an
instance exists, `none` otherwise. -/
def onUserQualityChange (instTracks : Option (List ShakaVariantTrack))
    (q : QualitiesState) (isChrome : Bool) : List LibCall :=
  match instTracks with
  | none => []
  | some ts =>
    if q.auto then []
    else
      match q.selected with
      | none => []
      | some sel =>
        [LibCall.configureAbr false]
        ++ (match ts.find? (fun t => t.height = some sel.height) with
            | some t => [LibCall.selectVariantTrack t (decide (q.switchMode = "current"))]
            | none => [])
        ++ (if isChrome then [LibCall.chromeSeekHack] else [])

/-! ### Live sync and teardown (shaka.ts lines 127-139, 447-456) -/

/-- A scheduling/teardown action of the adapter. -/
inductive SyncAction where
  | startRafLoop
  | awaitInstanceDestroy
  | stopLiveSync
deriving DecidableEq

/-- `#liveSync`: when the stream is live, constructs a `RAFLoop` (the
host framework's requestAnimationFrame loop) over `#liveSyncPosition`
and starts it; otherwise does nothing. -/
def liveSyncEffect (live : Bool) : List SyncAction :=
  if live then [SyncAction.startRafLoop] else []

/-- `destroy`: awaits `instance.destroy()` when an instance exists, then
runs the live-sync stop handle if one was set. -/
def destroyActions (instPresent : Bool) (liveSyncActive : Bool) : List SyncAction :=
  (if instPresent then [SyncAction.awaitInstanceDestroy] else [])
  ++ (if liveSyncActive then [SyncAction.stopLiveSync] else [])

/-! ### Network filter registration (shaka.ts lines 394-412) -/

/-- A networking-engine registration. -/
inductive NetAction where
  | registerReq (f : Nat)
  | registerRes (f : Nat)
deriving DecidableEq

/-- `registerRequestFilter`: `instance?.getNetworkingEngine()`
short-circuits to no-op when the instance is null; the filter is not
stored anywhere. -/
def registerRequestFilterCall (instPresent enginePresent : Bool) (f : Nat) :
    List NetAction :=
  if instPresent then
    (if enginePresent then [NetAction.registerReq f] else [])
  else []

/-- `registerResponseFilter`, same shape. -/
def registerResponseFilterCall (instPresent enginePresent : Bool) (f : Nat) :
    List NetAction :=
  if instPresent then
    (if enginePresent then [NetAction.registerRes f] else [])
  else []

/-! ### `onInstance` callback registry (shaka.ts 414-417, provider.ts 310-314) -/

/-- Controller state for the callback registry: `#instance` and
`#callbacks` (a JS `Set`, i.e. insertion-ordered without duplicates). -/
structure ControllerState where
  inst : Option Nat
  callbacks : List Nat
deriving DecidableEq

/-- `ShakaController.onInstance`: add to the set. -/
def controllerOnInstance (st : ControllerState) (cb : Nat) : ControllerState :=
  { st with callbacks := if cb ∈ st.callbacks then st.callbacks else st.callbacks ++ [cb] }

/-- The dispose function returned by `ShakaController.onInstance`:
`Set.delete`. -/
def disposeCallback (st : ControllerState) (cb : Nat) : ControllerState :=
  { st with callbacks := st.callbacks.filter (fun x => x != cb) }

/-- `ShakaProvider.onInstance`: the synchronous invocations it performs
immediately, and the state after registration. -/
def providerOnInstance (st : ControllerState) (cb : Nat) :
    List Nat × ControllerState :=
  ((match st.inst with | some _ => [cb] | none => []), controllerOnInstance st cb)

/-- The callbacks `ShakaController.setup` invokes on a new instance
(shaka.ts line 74), in set order. -/
def setupCallbackInvocations (st : ControllerState) : List Nat :=
  st.callbacks

/-! ### Decimal round-trip (for id distinctness) -/

/-- Value of a little-endian digit list. -/
def ofDigitsLE : List Nat → Nat
  | [] => 0
  | d :: rest => d + 10 * ofDigitsLE rest

/-! ### Concrete sample data used by witnesses and counterexamples -/

/-- Shorthand for a variant track with the given id, bandwidth, width
and height (all other fields defaulted). -/
def vtrack (i bw : Nat) (w h : Option Nat) : ShakaVariantTrack :=
  { id := i, active := false, bandwidth := bw, language := "", label := none,
    kind := none, width := w, height := h, codecs := none, videoCodec := none }

/-- A sample variant list: one 360p track, two 720p tracks (different
bandwidths), and a track without a resolution. -/
def sampleTracks : List ShakaVariantTrack :=
  [vtrack 1 800 (some 640) (some 360),
   vtrack 2 1200 (some 1280) (some 720),
   vtrack 3 2500 (some 1280) (some 720),
   vtrack 4 900 none none]

/-- Two variant tracks sharing the id `7` at different resolutions. -/
def dupIdTracks : List ShakaVariantTrack :=
  [vtrack 7 1000 (some 1280) (some 720),
   vtrack 7 500 (some 640) (some 360)]

/-- An audio language/role pair whose role is the empty string. -/
def emptyRole : ShakaLanguageRole :=
  { language := "en", role := "", label := none }

/-- A sample Shaka error with a message. -/
def sampleShakaError : ShakaError :=
  { severity := 2, category := 3, code := 1001, message := some "boom" }

/-- A sample thrown `Error` value. -/
def sampleThrown : JsThrown := { isError := true, message := "load failed" }

/-- A provider config with config object and both filters present. -/
def sampleCfg : ShakaConfigModel :=
  { config := some 1, requestFilter := some 2, responseFilter := some 3 }

/-- A sample incoming-event context. -/
def sampleEventCtx : EventCtx :=
  { eventRef := 42, buffering := true, canPlay := false, instPresent := true,
    isLive := false, seekStart := 0, seekEnd := 0, variantTracks := sampleTracks,
    audioRoles := [emptyRole], textTracks := [], ctxQualities := [],
    newTrack := none, newTrackIsVariant := false }

/-- A sample selected host quality at height 720. -/
def sampleQuality720 : VideoQuality :=
  { id := "q720", width := 1280, height := 720, bitrate := 1200,
    codec := "", index := 0 }

/-- A controller state with an instance and one registered callback. -/
def sampleState : ControllerState := { inst := some 5, callbacks := [10] }

/-! ## Helper lemmas -/

theorem ofDigitsLE_natDigitsLEAux :
    ∀ fuel n, n ≤ fuel → ofDigitsLE (natDigitsLEAux fuel n) = n := by
  intro fuel
  induction fuel with
  | zero =>
    intro n hn
    have : n = 0 := Nat.le_zero.mp hn
    subst this
    simp [natDigitsLEAux, ofDigitsLE]
  | succ f ih =>
    intro n hn
    rw [natDigitsLEAux]
    by_cases h : n < 10
    · simp [h, ofDigitsLE]
    · have hdiv : n / 10 ≤ f := by
        have := Nat.div_lt_self (by omega : 0 < n) (by omega : 1 < 10)
        omega
      simp only [h, if_false, ofDigitsLE, ih (n / 10) hdiv]
      omega

theorem ofDigitsLE_natDigitsLE (n : Nat) : ofDigitsLE (natDigitsLE n) = n :=
  ofDigitsLE_natDigitsLEAux n n (Nat.le_refl n)

theorem natDigitsLEAux_lt_ten :
    ∀ fuel n, n ≤ fuel → ∀ d ∈ natDigitsLEAux fuel n, d < 10 := by
  intro fuel
  induction fuel with
  | zero =>
    intro n hn d hd
    have : n = 0 := Nat.le_zero.mp hn
    subst this
    simp [natDigitsLEAux] at hd
    omega
  | succ f ih =>
    intro n hn d hd
    rw [natDigitsLEAux] at hd
    by_cases h : n < 10
    · simp [h] at hd; omega
    · simp only [h, if_false, List.mem_cons] at hd
      rcases hd with hd | hd
      · subst hd; exact Nat.mod_lt _ (by omega)
      · have hdiv : n / 10 ≤ f := by
          have := Nat.div_lt_self (by omega : 0 < n) (by omega : 1 < 10)
          omega
        exact ih (n / 10) hdiv d hd

theorem natDigitsLE_lt_ten (n : Nat) : ∀ d ∈ natDigitsLE n, d < 10 :=
  natDigitsLEAux_lt_ten n n (Nat.le_refl n)

theorem digitToChar_inj : ∀ d1 < 10, ∀ d2 < 10, digitToChar d1 = digitToChar d2 → d1 = d2 := by
  decide

theorem map_digitToChar_inj :
    ∀ l1 l2 : List Nat, (∀ d ∈ l1, d < 10) → (∀ d ∈ l2, d < 10) →
      l1.map digitToChar = l2.map digitToChar → l1 = l2 := by
  intro l1
  induction l1 with
  | nil => intro l2 _ _ h; cases l2 <;> simp_all
  | cons d rest ih =>
    intro l2 h1 h2 h
    cases l2 with
    | nil => simp at h
    | cons e rest2 =>
      simp only [List.map_cons, List.cons.injEq] at h
      have hd : d = e :=
        digitToChar_inj d (h1 d (by simp)) e (h2 e (by simp)) h.1
      have ht := ih rest2 (fun x hx => h1 x (by simp [hx]))
        (fun x hx => h2 x (by simp [hx])) h.2
      simp [hd, ht]

theorem natToString_inj (m n : Nat) (h : natToString m = natToString n) : m = n := by
  unfold natToString at h
  injection h with h
  have hm := natDigitsLE_lt_ten m
  have hn := natDigitsLE_lt_ten n
  have hrev : (natDigitsLE m).reverse = (natDigitsLE n).reverse :=
    map_digitToChar_inj _ _ (fun d hd => hm d (List.mem_reverse.mp hd))
      (fun d hd => hn d (List.mem_reverse.mp hd)) h
  have hdig : natDigitsLE m = natDigitsLE n := List.reverse_injective hrev
  calc m = ofDigitsLE (natDigitsLE m) := (ofDigitsLE_natDigitsLE m).symm
    _ = ofDigitsLE (natDigitsLE n) := by rw [hdig]
    _ = n := ofDigitsLE_natDigitsLE n

theorem string_append_left_cancel {s t1 t2 : String} (h : s ++ t1 = s ++ t2) : t1 = t2 := by
  cases s with | _ d =>
  cases t1 with | _ d1 =>
  cases t2 with | _ d2 =>
  simp only [HAppend.hAppend, Append.append, String.append] at h
  injection h with h
  exact congrArg String.mk (List.append_cancel_left h)

theorem prefixed_nat_inj (p : String) (a b : Nat)
    (h : p ++ natToString a = p ++ natToString b) : a = b :=
  natToString_inj a b (string_append_left_cancel h)

/-! ### Invariants of the `uniqueQualities` grouping loop -/

/-- `u` is a best track for its height among `p`. -/
def IsBest (p : List ShakaVariantTrack) (u : ShakaVariantTrack) : Prop :=
  hasResolution u = true ∧ u ∈ p ∧
    ∀ t ∈ p, hasResolution t = true → t.height = u.height → t.bandwidth ≤ u.bandwidth

/-- Every processed track with a resolution has an entry for its height. -/
def Covers (p m : List ShakaVariantTrack) : Prop :=
  ∀ t ∈ p, hasResolution t = true → ∃ u ∈ m, u.height = t.height

/-- The loop invariant relating the processed prefix `p` to the map `m`. -/
def GroupInv (p m : List ShakaVariantTrack) : Prop :=
  (∀ u ∈ m, IsBest p u) ∧
    List.Pairwise (fun a b => a.height ≠ b.height) m ∧ Covers p m

theorem mem_updateUnique {m : List ShakaVariantTrack} {t v : ShakaVariantTrack}
    (h : v ∈ updateUnique m t) : v ∈ m ∨ v = t := by
  induction m with
  | nil => simp [updateUnique] at h; simp [h]
  | cons u rest ih =>
    rw [updateUnique] at h
    by_cases hk : u.height = t.height
    · rw [if_pos hk] at h
      rcases List.mem_cons.mp h with hv | hv
      · by_cases hb : t.bandwidth > u.bandwidth
        · rw [if_pos hb] at hv; simp [hv]
        · rw [if_neg hb] at hv; simp [hv]
      · exact Or.inl (List.mem_cons_of_mem _ hv)
    · rw [if_neg hk] at h
      rcases List.mem_cons.mp h with hv | hv
      · simp [hv]
      · rcases ih hv with h2 | h2
        · exact Or.inl (List.mem_cons_of_mem _ h2)
        · exact Or.inr h2

theorem exists_height_updateUnique (m : List ShakaVariantTrack) (t : ShakaVariantTrack) :
    ∃ v ∈ updateUnique m t, v.height = t.height := by
  induction m with
  | nil => exact ⟨t, by simp [updateUnique]⟩
  | cons u rest ih =>
    rw [updateUnique]
    by_cases hk : u.height = t.height
    · rw [if_pos hk]
      by_cases hb : t.bandwidth > u.bandwidth
      · exact ⟨t, by simp [hb]⟩
      · exact ⟨u, by simp [hb], hk⟩
    · rw [if_neg hk]
      obtain ⟨v, hv, hvh⟩ := ih
      exact ⟨v, List.mem_cons_of_mem _ hv, hvh⟩

theorem height_mem_updateUnique {m : List ShakaVariantTrack} {t : ShakaVariantTrack}
    {h0 : Option Nat} (h : ∃ u ∈ m, u.height = h0) :
    ∃ v ∈ updateUnique m t, v.height = h0 := by
  induction m with
  | nil => simp at h
  | cons u rest ih =>
    obtain ⟨w, hw, hwh⟩ := h
    rw [updateUnique]
    by_cases hk : u.height = t.height
    · rw [if_pos hk]
      rcases List.mem_cons.mp hw with hv | hv
      · refine ⟨if t.bandwidth > u.bandwidth then t else u, by simp, ?_⟩
        have huh : u.height = h0 := hv ▸ hwh
        by_cases hb : t.bandwidth > u.bandwidth
        · rw [if_pos hb, ← hk]; exact huh
        · rw [if_neg hb]; exact huh
      · exact ⟨w, List.mem_cons_of_mem _ hv, hwh⟩
    · rw [if_neg hk]
      rcases List.mem_cons.mp hw with hv | hv
      · exact ⟨w, by simp [hv], hwh⟩
      · obtain ⟨v, hv2, hvh⟩ := ih ⟨w, hv, hwh⟩
        exact ⟨v, List.mem_cons_of_mem _ hv2, hvh⟩

theorem updateUnique_cases {m : List ShakaVariantTrack} {t : ShakaVariantTrack}
    (hm : List.Pairwise (fun a b => a.height ≠ b.height) m) :
    ∀ v ∈ updateUnique m t,
      (v ∈ m ∧ v.height ≠ t.height) ∨
      (v = t ∧ ∀ u ∈ m, u.height = t.height → u.bandwidth < t.bandwidth) ∨
      (v ∈ m ∧ v.height = t.height ∧ t.bandwidth ≤ v.bandwidth) := by
  induction m with
  | nil =>
    intro v hv
    simp [updateUnique] at hv
    exact Or.inr (Or.inl ⟨hv, by simp⟩)
  | cons u rest ih =>
    intro v hv
    have hured : ∀ w ∈ rest, u.height ≠ w.height := (List.pairwise_cons.mp hm).1
    have hrest := (List.pairwise_cons.mp hm).2
    rw [updateUnique] at hv
    by_cases hk : u.height = t.height
    · rw [if_pos hk] at hv
      rcases List.mem_cons.mp hv with hv | hv
      · by_cases hb : t.bandwidth > u.bandwidth
        · rw [if_pos hb] at hv
          subst hv
          refine Or.inr (Or.inl ⟨rfl, ?_⟩)
          intro w hw hwh
          rcases List.mem_cons.mp hw with hw | hw
          · subst hw; exact hb
          · exact absurd (hk.trans hwh.symm) (hured w hw)
        · rw [if_neg hb] at hv
          subst hv
          exact Or.inr (Or.inr ⟨by simp, hk, Nat.le_of_not_lt hb⟩)
      · refine Or.inl ⟨List.mem_cons_of_mem _ hv, ?_⟩
        intro hvh
        exact hured v hv (hk.trans hvh.symm)
    · rw [if_neg hk] at hv
      rcases List.mem_cons.mp hv with hv | hv
      · subst hv; exact Or.inl ⟨by simp, hk⟩
      · rcases ih hrest v hv with h2 | h2 | h2
        · exact Or.inl ⟨List.mem_cons_of_mem _ h2.1, h2.2⟩
        · refine Or.inr (Or.inl ⟨h2.1, ?_⟩)
          intro w hw hwh
          rcases List.mem_cons.mp hw with hw | hw
          · subst hw; exact absurd hwh hk
          · exact h2.2 w hw hwh
        · exact Or.inr (Or.inr ⟨List.mem_cons_of_mem _ h2.1, h2.2⟩)

theorem updateUnique_pairwise {m : List ShakaVariantTrack} {t : ShakaVariantTrack}
    (hm : List.Pairwise (fun a b => a.height ≠ b.height) m) :
    List.Pairwise (fun a b => a.height ≠ b.height) (updateUnique m t) := by
  induction m with
  | nil => simp [updateUnique]
  | cons u rest ih =>
    have hured : ∀ w ∈ rest, u.height ≠ w.height := (List.pairwise_cons.mp hm).1
    have hrest := (List.pairwise_cons.mp hm).2
    rw [updateUnique]
    by_cases hk : u.height = t.height
    · rw [if_pos hk]
      refine List.pairwise_cons.mpr ⟨?_, hrest⟩
      intro w hw
      by_cases hb : t.bandwidth > u.bandwidth
      · rw [if_pos hb]; rw [← hk]; exact hured w hw
      · rw [if_neg hb]; exact hured w hw
    · rw [if_neg hk]
      refine List.pairwise_cons.mpr ⟨?_, ih hrest⟩
      intro w hw
      rcases mem_updateUnique hw with h2 | h2
      · exact hured w h2
      · subst h2; exact hk

theorem groupInv_step {p m : List ShakaVariantTrack} (t : ShakaVariantTrack)
    (h : GroupInv p m) :
    GroupInv (p ++ [t]) (if hasResolution t then updateUnique m t else m) := by
  obtain ⟨hbest, hpw, hcov⟩ := h
  by_cases hres : hasResolution t
  · rw [if_pos hres]
    refine ⟨?_, updateUnique_pairwise hpw, ?_⟩
    · intro v hv
      rcases updateUnique_cases hpw v hv with h2 | h2 | h2
      · obtain ⟨hvm, hvne⟩ := h2
        obtain ⟨hvres, hvp, hvmax⟩ := hbest v hvm
        refine ⟨hvres, List.mem_append_left _ hvp, ?_⟩
        intro w hw hwres hwh
        rcases List.mem_append.mp hw with hw | hw
        · exact hvmax w hw hwres hwh
        · rw [List.mem_singleton.mp hw] at hwh
          exact absurd hwh hvne.symm
      · obtain ⟨hvt, hmax⟩ := h2
        subst hvt
        refine ⟨hres, List.mem_append_right _ (by simp), ?_⟩
        intro w hw hwres hwh
        rcases List.mem_append.mp hw with hw | hw
        · obtain ⟨u, hu, huh⟩ := hcov w hw hwres
          have h3 : u.bandwidth < v.bandwidth := hmax u hu (huh.trans hwh)
          have h4 : w.bandwidth ≤ u.bandwidth :=
            (hbest u hu).2.2 w hw hwres huh.symm
          omega
        · rw [List.mem_singleton.mp hw]
      · obtain ⟨hvm, hvh, hble⟩ := h2
        obtain ⟨hvres, hvp, hvmax⟩ := hbest v hvm
        refine ⟨hvres, List.mem_append_left _ hvp, ?_⟩
        intro w hw hwres hwh
        rcases List.mem_append.mp hw with hw | hw
        · exact hvmax w hw hwres hwh
        · rw [List.mem_singleton.mp hw] at hwh ⊢
          exact hble
    · intro w hw hwres
      rcases List.mem_append.mp hw with hw | hw
      · exact height_mem_updateUnique (hcov w hw hwres)
      · rw [List.mem_singleton.mp hw]
        exact exists_height_updateUnique m t
  · rw [if_neg hres]
    refine ⟨?_, hpw, ?_⟩
    · intro v hv
      obtain ⟨hvres, hvp, hvmax⟩ := hbest v hv
      refine ⟨hvres, List.mem_append_left _ hvp, ?_⟩
      intro w hw hwres hwh
      rcases List.mem_append.mp hw with hw | hw
      · exact hvmax w hw hwres hwh
      · rw [List.mem_singleton.mp hw] at hwres
        exact absurd hwres hres
    · intro w hw hwres
      rcases List.mem_append.mp hw with hw | hw
      · exact hcov w hw hwres
      · rw [List.mem_singleton.mp hw] at hwres
        exact absurd hwres hres

theorem groupInv_fold (ts : List ShakaVariantTrack) :
    ∀ p m, GroupInv p m →
      GroupInv (p ++ ts)
        (ts.foldl (fun m t => if hasResolution t then updateUnique m t else m) m) := by
  induction ts with
  | nil => intro p m h; simpa using h
  | cons t rest ih =>
    intro p m h
    have h2 := ih (p ++ [t]) (if hasResolution t then updateUnique m t else m)
      (groupInv_step t h)
    simpa [List.append_assoc] using h2

theorem groupInv_nil : GroupInv [] [] := by
  refine ⟨by simp, by simp, by simp [Covers]⟩

theorem groupByResolution_inv (ts : List ShakaVariantTrack) :
    GroupInv ts (groupByResolution ts) := by
  have h := groupInv_fold ts [] [] groupInv_nil
  simpa [groupByResolution] using h

/-! ### Facts about `mkQualities` and the sorted list -/

theorem jsOrNat_some_zero (n : Nat) : jsOrNat (some n) 0 = n := by
  by_cases h : n = 0
  · simp [jsOrNat, h]
  · simp [jsOrNat, h]

theorem height_of_hasResolution {u : ShakaVariantTrack} (h : hasResolution u = true) :
    ∃ hv, u.height = some hv ∧ hv ≠ 0 ∧ jsOrNat u.height 0 = hv := by
  unfold hasResolution jsTruthyNat at h
  cases hu : u.height with
  | none => rw [hu] at h; simp at h
  | some n =>
    rw [hu] at h
    simp at h
    exact ⟨n, rfl, h.1, by simp [jsOrNat, h.1]⟩

theorem mkQualities_length (i : Nat) (l : List ShakaVariantTrack) :
    (mkQualities i l).length = l.length := by
  induction l generalizing i with
  | nil => rfl
  | cons t rest ih => simp [mkQualities, ih]

theorem mkQualities_get_index (l : List ShakaVariantTrack) :
    ∀ i j (h : j < (mkQualities i l).length),
      ((mkQualities i l).get ⟨j, h⟩).index = i + j := by
  induction l with
  | nil => intro i j h; simp [mkQualities] at h
  | cons t rest ih =>
    intro i j h
    cases j with
    | zero => simp [mkQualities, mkQuality]
    | succ k =>
      have h2 : k < (mkQualities (i + 1) rest).length := by
        have h3 := h
        rw [mkQualities_length] at h3 ⊢
        simpa using h3
      have h4 := ih (i + 1) k h2
      simp only [mkQualities, List.get_cons_succ]
      rw [show ((mkQualities (i + 1) rest).get ⟨k, h2⟩).index = i + 1 + k from h4]
      omega

theorem mem_mkQualities {l : List ShakaVariantTrack} {q : VideoQuality} :
    ∀ {i}, q ∈ mkQualities i l → ∃ t ∈ l, ∃ k, q = mkQuality k t := by
  induction l with
  | nil => intro i h; simp [mkQualities] at h
  | cons t rest ih =>
    intro i h
    rcases List.mem_cons.mp h with h2 | h2
    · exact ⟨t, by simp, i, h2⟩
    · obtain ⟨u, hu, k, hk⟩ := ih h2
      exact ⟨u, List.mem_cons_of_mem _ hu, k, hk⟩

theorem mkQualities_mem_of_mem {l : List ShakaVariantTrack} {t : ShakaVariantTrack}
    (h : t ∈ l) : ∀ i, ∃ k, mkQuality k t ∈ mkQualities i l := by
  induction l with
  | nil => simp at h
  | cons u rest ih =>
    intro i
    rcases List.mem_cons.mp h with h2 | h2
    · exact ⟨i, by rw [h2]; simp [mkQualities]⟩
    · obtain ⟨k, hk⟩ := ih h2 (i + 1)
      exact ⟨k, List.mem_cons_of_mem _ hk⟩

theorem mkQualities_pairwise_height (l : List ShakaVariantTrack)
    (h : List.Pairwise (fun a b => jsOrNat b.height 0 < jsOrNat a.height 0) l) :
    ∀ i, List.Pairwise (fun q1 q2 => q2.height < q1.height) (mkQualities i l) := by
  induction l with
  | nil => intro i; simp [mkQualities]
  | cons t rest ih =>
    intro i
    have hhead := (List.pairwise_cons.mp h).1
    have htail := (List.pairwise_cons.mp h).2
    refine List.pairwise_cons.mpr ⟨?_, ih htail (i + 1)⟩
    intro q hq
    obtain ⟨u, hu, k, hk⟩ := mem_mkQualities hq
    rw [hk]
    exact hhead u hu

/-- The entries of `groupByResolution`, after sorting: all have a
resolution, are pairwise height-distinct, and are best for their height. -/
theorem sorted_groupByResolution (ts : List ShakaVariantTrack) :
    (∀ u ∈ sortByHeightDesc (groupByResolution ts), IsBest ts u)
    ∧ List.Pairwise (fun a b => jsOrNat b.height 0 < jsOrNat a.height 0)
        (sortByHeightDesc (groupByResolution ts))
    ∧ Covers ts (sortByHeightDesc (groupByResolution ts)) := by
  obtain ⟨hbest, hpw, hcov⟩ := groupByResolution_inv ts
  have hperm : List.Perm (sortByHeightDesc (groupByResolution ts)) (groupByResolution ts) :=
    List.perm_insertionSort heightGe (groupByResolution ts)
  have hmem : ∀ {u}, u ∈ sortByHeightDesc (groupByResolution ts) ↔
      u ∈ groupByResolution ts := fun {u} => hperm.mem_iff
  have hsorted : List.Pairwise heightGe (sortByHeightDesc (groupByResolution ts)) :=
    List.sorted_insertionSort heightGe (groupByResolution ts)
  have hne : List.Pairwise (fun a b : ShakaVariantTrack => a.height ≠ b.height)
      (sortByHeightDesc (groupByResolution ts)) :=
    (List.Perm.pairwise_iff (fun h => h.symm) hperm).mpr hpw
  refine ⟨fun u hu => hbest u (hmem.mp hu), ?_, ?_⟩
  · have hand := hsorted.and hne
    refine List.Pairwise.imp_of_mem ?_ hand
    intro a b ha hb hab
    obtain ⟨h1, h2⟩ := hab
    obtain ⟨hva, hha, hna, hja⟩ := height_of_hasResolution (hbest a (hmem.mp ha)).1
    obtain ⟨hvb, hhb, hnb, hjb⟩ := height_of_hasResolution (hbest b (hmem.mp hb)).1
    rw [hja, hjb]
    have hne2 : hva ≠ hvb := by
      intro hcontra
      exact h2 (by rw [hha, hhb, hcontra])
    have hle : hvb ≤ hva := by
      have h3 := h1
      unfold heightGe at h3
      rw [hja, hjb] at h3
      exact h3
    omega
  · intro w hw hwres
    obtain ⟨u, hu, huh⟩ := hcov w hw hwres
    exact ⟨u, hmem.mpr hu, huh⟩

/-! ## Claim theorems -/

/-- Claim C1: `#updateQualityTracks` deduplicates variant tracks by
height (considering only tracks with a truthy height and width), keeps
for each height a track of maximal bandwidth, emits the qualities
sorted by height in strictly descending order, and gives each quality
an `index` equal to its position; each quality's fields are built from
its source track. -/
theorem C1_quality_projection (ts : List ShakaVariantTrack) :
    List.Pairwise (fun q1 q2 => q2.height < q1.height) (updateQualityTracks ts)
    ∧ (∀ j (h : j < (updateQualityTracks ts).length),
        ((updateQualityTracks ts).get ⟨j, h⟩).index = j)
    ∧ (∀ q ∈ updateQualityTracks ts, ∃ t ∈ ts, hasResolution t = true
        ∧ (∀ u ∈ ts, hasResolution u = true → u.height = t.height →
            u.bandwidth ≤ t.bandwidth)
        ∧ q.id = "shaka-quality-" ++ natToString t.id
        ∧ q.width = jsOrNat t.width 0
        ∧ q.height = jsOrNat t.height 0
        ∧ q.bitrate = t.bandwidth
        ∧ q.codec = jsOrOptStr t.videoCodec (jsOrOptStr t.codecs ""))
    ∧ (∀ t ∈ ts, hasResolution t = true →
        ∃ q ∈ updateQualityTracks ts, q.height = jsOrNat t.height 0) := by
  obtain ⟨hbest, hpw, hcov⟩ := sorted_groupByResolution ts
  have hdef : updateQualityTracks ts
      = mkQualities 0 (sortByHeightDesc (groupByResolution ts)) := rfl
  rw [hdef]
  refine ⟨?_, ?_, ?_, ?_⟩
  · exact mkQualities_pairwise_height _ hpw 0
  · intro j h
    have h2 := mkQualities_get_index (sortByHeightDesc (groupByResolution ts)) 0 j h
    simpa using h2
  · intro q hq
    obtain ⟨t, ht, k, hk⟩ := mem_mkQualities hq
    obtain ⟨hres, htp, hmax⟩ := hbest t ht
    subst hk
    exact ⟨t, htp, hres, hmax, rfl, rfl, rfl, jsOrNat_some_zero _, rfl⟩
  · intro t ht hres
    obtain ⟨u, hu, huh⟩ := hcov t ht hres
    obtain ⟨k, hk⟩ := mkQualities_mem_of_mem hu 0
    exact ⟨mkQuality k u, hk, by simp [mkQuality, huh]⟩

/-- Witness for C1 at `sampleTracks`: the 720p track yields a quality
entry of height 720. -/
theorem C1_quality_projection_witness :
    ∃ q ∈ updateQualityTracks sampleTracks, q.height = 720 := by
  have h := (C1_quality_projection sampleTracks).2.2.2
    (vtrack 2 1200 (some 1280) (some 720)) (by decide) (by decide)
  simpa [vtrack, jsOrNat] using h

/-- Claim C2: a Shaka `error` event with a detail is forwarded to
`ctx.notify('error', ...)` with the library error object unchanged (and
its message when present); an event without a detail notifies nothing;
`loadSource` makes at most one load attempt, and on failure notifies
once with the thrown value unchanged, without retrying. -/
theorem C2_error_forwarding :
    (∀ err : ShakaError,
      (onShakaError (some err)).map ErrorNoticePayload.error = some err)
    ∧ (∀ err : ShakaError, ∀ m, err.message = some m → m ≠ "" →
        (onShakaError (some err)).map ErrorNoticePayload.message = some m)
    ∧ onShakaError none = none
    ∧ (∀ (src : Option String) (inst : Bool) (res : String → Except JsThrown Unit),
        ((loadSource src inst res).filter
          (fun a => match a with | LoadAction.load _ => true | _ => false)).length ≤ 1)
    ∧ (∀ (s : String) (res : String → Except JsThrown Unit) (e : JsThrown),
        res s = Except.error e →
        loadSource (some s) true res =
          [LoadAction.load s,
           LoadAction.notifyError (if e.isError then e.message else "Failed to load source")
             1 e]) := by
  refine ⟨?_, ?_, rfl, ?_, ?_⟩
  · intro err
    simp [onShakaError, onFatalError]
  · intro err m hm hne
    simp [onShakaError, onFatalError, hm, jsOrOptStr, jsOrStr, hne]
  · intro src inst res
    match src with
    | none => simp [loadSource]
    | some s =>
      by_cases hi : inst
      · subst hi
        match hres : res s with
        | Except.ok _ => simp [loadSource, hres]
        | Except.error e => simp [loadSource, hres]
      · simp [loadSource, hi]
  · intro s res e hres
    simp [loadSource, hres]

/-- Witness for C2 at a sample error and a failing load. -/
theorem C2_error_forwarding_witness :
    (onShakaError (some sampleShakaError)).map ErrorNoticePayload.error
        = some sampleShakaError
    ∧ loadSource (some "s.mpd") true (fun _ => Except.error sampleThrown) =
        [LoadAction.load "s.mpd",
         LoadAction.notifyError "load failed" 1 sampleThrown] := by
  refine ⟨C2_error_forwarding.1 sampleShakaError, ?_⟩
  have h := C2_error_forwarding.2.2.2.2 "s.mpd"
    (fun _ => Except.error sampleThrown) sampleThrown rfl
  simpa [sampleThrown] using h

theorem stepPrecedes_of_mem_mem {a b : SetupStep} :
    ∀ (l1 l2 : List SetupStep), a ∈ l1 → b ∈ l2 →
      stepPrecedes a b (l1 ++ l2) = true := by
  intro l1
  induction l1 with
  | nil => intro l2 ha; simp at ha
  | cons u rest ih =>
    intro l2 ha hb
    rw [List.cons_append, stepPrecedes]
    by_cases h : u = a
    · rw [if_pos h]
      exact List.any_eq_true.mpr ⟨b, List.mem_append_right _ hb, by simp⟩
    · rw [if_neg h]
      rcases List.mem_cons.mp ha with h2 | h2
      · exact absurd h2.symm h
      · exact ih l2 h2 hb

/-- Counterexample to claim C3 as stated: in a concrete setup run, the
forwarding listener for `buffering` is attached strictly before
`configure` is applied (and `configure` never precedes it), contrary to
the claimed order `configure` → listeners. -/
theorem C3_lifecycle_cex :
    stepPrecedes (SetupStep.addForwardListener "buffering") SetupStep.configure
      (providerSetup sampleCfg [] true (some "s.mpd")) = true
    ∧ stepPrecedes SetupStep.configure (SetupStep.addForwardListener "buffering")
      (providerSetup sampleCfg [] true (some "s.mpd")) = false := by
  constructor
  · decide
  · decide

/-- Claim C3 (amended): the lifecycle order is library load, then
construction, then listener attachment (the forwarding and error
listeners), then configuration — listeners before `configure`, not
after — then the track-update handler listeners, and the source is
loaded only after all setup steps completed. -/
theorem C3_lifecycle_order (cfg : ShakaConfigModel) (cbs : List Nat) (eng : Bool)
    (s : String) :
    (providerSetup cfg cbs eng (some s)).head? = some SetupStep.loadLibrary
    ∧ (∀ e ∈ forwardedEvents,
        stepPrecedes SetupStep.construct (SetupStep.addForwardListener e)
          (providerSetup cfg cbs eng (some s)) = true)
    ∧ (∀ c, cfg.config = some c → ∀ e ∈ forwardedEvents,
        stepPrecedes (SetupStep.addForwardListener e) SetupStep.configure
          (providerSetup cfg cbs eng (some s)) = true)
    ∧ (∀ c, cfg.config = some c →
        stepPrecedes SetupStep.addErrorListener SetupStep.configure
          (providerSetup cfg cbs eng (some s)) = true)
    ∧ (∀ c, cfg.config = some c →
        ∀ e ∈ (["adaptation", "trackschanged", "loaded", "buffering"] : List String),
        stepPrecedes SetupStep.configure (SetupStep.addHandlerListener e)
          (providerSetup cfg cbs eng (some s)) = true)
    ∧ (providerSetup cfg cbs eng (some s)).getLast? = some (SetupStep.loadSourceStep s)
    ∧ SetupStep.loadSourceStep s ∉ (providerSetup cfg cbs eng (some s)).dropLast := by
  refine ⟨by simp [providerSetup], ?_, ?_, ?_, ?_, ?_, ?_⟩
  · intro e he
    have htrace : providerSetup cfg cbs eng (some s) =
        [SetupStep.loadLibrary, SetupStep.construct]
        ++ (forwardedEvents.map SetupStep.addForwardListener
            ++ [SetupStep.addErrorListener]
            ++ cbs.map SetupStep.invokeCallback
            ++ [SetupStep.dispatchInstanceEvent]
            ++ (match cfg.config with
                | some _ => [SetupStep.configure]
                | none => [])
            ++ (if eng then
                  (match cfg.requestFilter with
                   | some _ => [SetupStep.registerReqFilter]
                   | none => [])
                  ++ (match cfg.responseFilter with
                      | some _ => [SetupStep.registerResFilter]
                      | none => [])
                else [])
            ++ [SetupStep.addHandlerListener "adaptation",
                SetupStep.addHandlerListener "trackschanged",
                SetupStep.addHandlerListener "loaded",
                SetupStep.addHandlerListener "buffering"]
            ++ [SetupStep.setAutoQualityHook, SetupStep.listenQualityChange,
                SetupStep.listenAudioChange, SetupStep.startLiveSyncEffect]
            ++ [SetupStep.notifyProviderSetup]
            ++ [SetupStep.loadSourceStep s]) := by
      simp [providerSetup, controllerSetup, List.append_assoc]
    rw [htrace]
    refine stepPrecedes_of_mem_mem _ _ (by simp) ?_
    have hmem : SetupStep.addForwardListener e
        ∈ forwardedEvents.map SetupStep.addForwardListener :=
      List.mem_map.mpr ⟨e, he, rfl⟩
    simp only [List.mem_append]
    tauto
  · intro c hc e he
    have htrace : providerSetup cfg cbs eng (some s) =
        ([SetupStep.loadLibrary, SetupStep.construct]
          ++ forwardedEvents.map SetupStep.addForwardListener)
        ++ ([SetupStep.addErrorListener]
            ++ cbs.map SetupStep.invokeCallback
            ++ [SetupStep.dispatchInstanceEvent]
            ++ (match cfg.config with
                | some _ => [SetupStep.configure]
                | none => [])
            ++ (if eng then
                  (match cfg.requestFilter with
                   | some _ => [SetupStep.registerReqFilter]
                   | none => [])
                  ++ (match cfg.responseFilter with
                      | some _ => [SetupStep.registerResFilter]
                      | none => [])
                else [])
            ++ [SetupStep.addHandlerListener "adaptation",
                SetupStep.addHandlerListener "trackschanged",
                SetupStep.addHandlerListener "loaded",
                SetupStep.addHandlerListener "buffering"]
            ++ [SetupStep.setAutoQualityHook, SetupStep.listenQualityChange,
                SetupStep.listenAudioChange, SetupStep.startLiveSyncEffect]
            ++ [SetupStep.notifyProviderSetup]
            ++ [SetupStep.loadSourceStep s]) := by
      simp [providerSetup, controllerSetup, List.append_assoc]
    rw [htrace]
    refine stepPrecedes_of_mem_mem _ _
      (List.mem_append_right _ (List.mem_map.mpr ⟨e, he, rfl⟩)) ?_
    rw [hc]
    simp
  · intro c hc
    have htrace : providerSetup cfg cbs eng (some s) =
        ([SetupStep.loadLibrary, SetupStep.construct]
          ++ forwardedEvents.map SetupStep.addForwardListener
          ++ [SetupStep.addErrorListener])
        ++ (cbs.map SetupStep.invokeCallback
            ++ [SetupStep.dispatchInstanceEvent]
            ++ (match cfg.config with
                | some _ => [SetupStep.configure]
                | none => [])
            ++ (if eng then
                  (match cfg.requestFilter with
                   | some _ => [SetupStep.registerReqFilter]
                   | none => [])
                  ++ (match cfg.responseFilter with
                      | some _ => [SetupStep.registerResFilter]
                      | none => [])
                else [])
            ++ [SetupStep.addHandlerListener "adaptation",
                SetupStep.addHandlerListener "trackschanged",
                SetupStep.addHandlerListener "loaded",
                SetupStep.addHandlerListener "buffering"]
            ++ [SetupStep.setAutoQualityHook, SetupStep.listenQualityChange,
                SetupStep.listenAudioChange, SetupStep.startLiveSyncEffect]
            ++ [SetupStep.notifyProviderSetup]
            ++ [SetupStep.loadSourceStep s]) := by
      simp [providerSetup, controllerSetup, List.append_assoc]
    rw [htrace]
    refine stepPrecedes_of_mem_mem _ _ (by simp) ?_
    rw [hc]
    simp
  · intro c hc e he
    have htrace : providerSetup cfg cbs eng (some s) =
        ([SetupStep.loadLibrary, SetupStep.construct]
          ++ forwardedEvents.map SetupStep.addForwardListener
          ++ [SetupStep.addErrorListener]
          ++ cbs.map SetupStep.invokeCallback
          ++ [SetupStep.dispatchInstanceEvent]
          ++ (match cfg.config with
              | some _ => [SetupStep.configure]
              | none => []))
        ++ ((if eng then
              (match cfg.requestFilter with
               | some _ => [SetupStep.registerReqFilter]
               | none => [])
              ++ (match cfg.responseFilter with
                  | some _ => [SetupStep.registerResFilter]
                  | none => [])
            else [])
            ++ [SetupStep.addHandlerListener "adaptation",
                SetupStep.addHandlerListener "trackschanged",
                SetupStep.addHandlerListener "loaded",
                SetupStep.addHandlerListener "buffering"]
            ++ [SetupStep.setAutoQualityHook, SetupStep.listenQualityChange,
                SetupStep.listenAudioChange, SetupStep.startLiveSyncEffect]
            ++ [SetupStep.notifyProviderSetup]
            ++ [SetupStep.loadSourceStep s]) := by
      simp [providerSetup, controllerSetup, List.append_assoc]
    rw [htrace]
    refine stepPrecedes_of_mem_mem _ _ ?_ ?_
    · rw [hc]
      simp
    · have hmem : SetupStep.addHandlerListener e
          ∈ [SetupStep.addHandlerListener "adaptation",
             SetupStep.addHandlerListener "trackschanged",
             SetupStep.addHandlerListener "loaded",
             SetupStep.addHandlerListener "buffering"] := by
        fin_cases he <;> simp
      simp only [List.mem_append]
      tauto
  · have htrace : providerSetup cfg cbs eng (some s) =
        (SetupStep.loadLibrary :: (controllerSetup cfg cbs eng
          ++ [SetupStep.notifyProviderSetup]))
        ++ [SetupStep.loadSourceStep s] := by
      simp [providerSetup, List.append_assoc]
    rw [htrace]
    exact List.getLast?_concat _
  · have htrace : providerSetup cfg cbs eng (some s) =
        (SetupStep.loadLibrary :: (controllerSetup cfg cbs eng
          ++ [SetupStep.notifyProviderSetup]))
        ++ [SetupStep.loadSourceStep s] := by
      simp [providerSetup, List.append_assoc]
    rw [htrace, List.dropLast_concat]
    intro hmem
    rcases List.mem_cons.mp hmem with h2 | h2
    · exact absurd h2 (by simp)
    · rcases List.mem_append.mp h2 with h3 | h3
      · rcases hco : cfg.config with _ | c2 <;>
          rcases hrf : cfg.requestFilter with _ | rf <;>
          rcases hrs : cfg.responseFilter with _ | rs <;>
          cases eng <;>
          simp [controllerSetup, hco, hrf, hrs, forwardedEvents] at h3
      · simp at h3

/-- Witness for C3 at a concrete configuration, source and empty
callback set. -/
theorem C3_lifecycle_order_witness :
    stepPrecedes (SetupStep.addForwardListener "buffering") SetupStep.configure
      (providerSetup sampleCfg [] true (some "s.mpd")) = true
    ∧ stepPrecedes SetupStep.configure (SetupStep.addHandlerListener "loaded")
      (providerSetup sampleCfg [] true (some "s.mpd")) = true := by
  constructor
  · exact (C3_lifecycle_order sampleCfg [] true "s.mpd").2.2.1 1 rfl "buffering" (by decide)
  · exact (C3_lifecycle_order sampleCfg [] true "s.mpd").2.2.2.2.1 1 rfl "loaded" (by decide)

theorem mkQualities_map_id (l : List ShakaVariantTrack) :
    ∀ i, (mkQualities i l).map VideoQuality.id
      = l.map (fun t => "shaka-quality-" ++ natToString t.id) := by
  induction l with
  | nil => intro i; rfl
  | cons t rest ih => intro i; simp [mkQualities, mkQuality, ih]

theorem mkAudioTracks_id_mem (gln : String → Option String) :
    ∀ (roles : List ShakaLanguageRole) (i : Nat) (a : AudioTrack),
      a ∈ mkAudioTracks gln i roles →
        ∃ k, i ≤ k ∧ a.id = "shaka-audio-" ++ natToString k := by
  intro roles
  induction roles with
  | nil => intro i a ha; simp [mkAudioTracks] at ha
  | cons lr rest ih =>
    intro i a ha
    rcases List.mem_cons.mp ha with h2 | h2
    · exact ⟨i, Nat.le_refl i, by rw [h2]; rfl⟩
    · obtain ⟨k, hk1, hk2⟩ := ih (i + 1) a h2
      exact ⟨k, by omega, hk2⟩

theorem mkAudioTracks_ids_nodup (gln : String → Option String) :
    ∀ (roles : List ShakaLanguageRole) (i : Nat),
      ((mkAudioTracks gln i roles).map AudioTrack.id).Nodup := by
  intro roles
  induction roles with
  | nil => intro i; simp [mkAudioTracks]
  | cons lr rest ih =>
    intro i
    simp only [mkAudioTracks, List.map_cons, List.nodup_cons]
    refine ⟨?_, ih (i + 1)⟩
    intro hmem
    obtain ⟨a, ha, hid⟩ := List.mem_map.mp hmem
    obtain ⟨k, hk1, hk2⟩ := mkAudioTracks_id_mem gln rest (i + 1) a ha
    rw [hk2] at hid
    have : k = i := prefixed_nat_inj _ _ _ hid
    omega

/-- Counterexample to claim C4 as stated: two variant tracks sharing the
Shaka id `7` at different heights both survive the resolution
deduplication, so the produced quality ids collide — the quality-id
uniqueness is not unconditional. -/
theorem C4_unique_ids_cex :
    (updateQualityTracks dupIdTracks).map VideoQuality.id
      = ["shaka-quality-7", "shaka-quality-7"]
    ∧ ¬ ((updateQualityTracks dupIdTracks).map VideoQuality.id).Nodup := by
  constructor
  · decide
  · decide

/-- Claim C4 (amended): provided the Shaka variant tracks have
pairwise-distinct ids, the produced qualities have pairwise-distinct
ids; the audio-track ids are unconditionally pairwise distinct; and
provided the Shaka text tracks have distinct ids, so do the produced
text tracks. -/
theorem C4_unique_ids (gln : String → Option String)
    (ts : List ShakaVariantTrack) (roles : List ShakaLanguageRole)
    (sts : List ShakaTextTrack)
    (hts : (ts.map ShakaVariantTrack.id).Nodup)
    (hsts : (sts.map ShakaTextTrack.id).Nodup) :
    ((updateQualityTracks ts).map VideoQuality.id).Nodup
    ∧ ((updateAudioTracks gln roles).map AudioTrack.id).Nodup
    ∧ ((updateTextTracks gln sts).map HostTextTrack.id).Nodup := by
  refine ⟨?_, mkAudioTracks_ids_nodup gln roles 0, ?_⟩
  · obtain ⟨hbest, hpw, _⟩ := sorted_groupByResolution ts
    have hdef : updateQualityTracks ts
        = mkQualities 0 (sortByHeightDesc (groupByResolution ts)) := rfl
    rw [hdef, mkQualities_map_id]
    have hnodup : (sortByHeightDesc (groupByResolution ts)).Nodup := by
      refine hpw.imp ?_
      intro a b hlt heq
      rw [heq] at hlt
      omega
    refine hnodup.map_on ?_
    intro x hx y hy hxy
    have hxid : x.id = y.id := prefixed_nat_inj _ _ _ hxy
    exact List.inj_on_of_nodup_map hts (hbest x hx).2.1 (hbest y hy).2.1 hxid
  · have hstsn : sts.Nodup := List.Nodup.of_map _ hsts
    have hdef : updateTextTracks gln sts = sts.map (mkTextTrack gln) := rfl
    rw [hdef, List.map_map]
    refine hstsn.map_on ?_
    intro x hx y hy hxy
    have hxid : x.id = y.id := by
      have h2 : "shaka-text-" ++ natToString x.id
          = "shaka-text-" ++ natToString y.id := hxy
      exact prefixed_nat_inj _ _ _ h2
    exact List.inj_on_of_nodup_map hsts hx hy hxid

/-- Witness for C4 (amended) at `sampleTracks`, a two-role audio list
and a two-track text list with distinct ids. -/
theorem C4_unique_ids_witness :
    ((updateQualityTracks sampleTracks).map VideoQuality.id).Nodup
    ∧ ((updateAudioTracks (fun _ => none) [emptyRole, emptyRole]).map AudioTrack.id).Nodup
    ∧ ((updateTextTracks (fun _ => none)
        [{ id := 1, active := false, language := "en", label := none,
           kind := none, primary := none },
         { id := 2, active := false, language := "de", label := none,
           kind := none, primary := none }]).map HostTextTrack.id).Nodup :=
  C4_unique_ids (fun _ => none) sampleTracks [emptyRole, emptyRole] _
    (by decide) (by decide)

theorem mkAudioTracks_length (gln : String → Option String) :
    ∀ (roles : List ShakaLanguageRole) (i : Nat),
      (mkAudioTracks gln i roles).length = roles.length := by
  intro roles
  induction roles with
  | nil => intro i; rfl
  | cons lr rest ih => intro i; simp [mkAudioTracks, ih]

theorem mkAudioTracks_get (gln : String → Option String) :
    ∀ (roles : List ShakaLanguageRole) (i j : Nat)
      (h : j < (mkAudioTracks gln i roles).length) (h2 : j < roles.length),
      (mkAudioTracks gln i roles).get ⟨j, h⟩
        = mkAudioTrack gln (i + j) (roles.get ⟨j, h2⟩) := by
  intro roles
  induction roles with
  | nil => intro i j h h2; simp at h2
  | cons lr rest ih =>
    intro i j h h2
    cases j with
    | zero => simp [mkAudioTracks]
    | succ k =>
      have hk : k < (mkAudioTracks gln (i + 1) rest).length := by
        rw [mkAudioTracks_length]
        simpa using h2
      have hk2 : k < rest.length := by simpa using h2
      have hrec := ih (i + 1) k hk hk2
      simp only [mkAudioTracks, List.get_cons_succ]
      rw [show (mkAudioTracks gln (i + 1) rest).get ⟨k, hk⟩
          = mkAudioTrack gln (i + 1 + k) (rest.get ⟨k, hk2⟩) from hrec]
      rw [show i + 1 + k = i + (k + 1) from by omega]

/-- Counterexample to claim C5 as stated: the role field of an audio
language/role pair is a required string, so it is never absent, yet for
the present-but-empty role the produced kind is the fallback `main`,
not the role. -/
theorem C5_passthrough_cex :
    emptyRole.role = ""
    ∧ (updateAudioTracks (fun _ => none) [emptyRole]).map AudioTrack.kind = ["main"]
    ∧ (updateAudioTracks (fun _ => none) [emptyRole]).map AudioTrack.kind
        ≠ [emptyRole.role] := by
  refine ⟨rfl, by decide, by decide⟩

/-- Claim C5 (amended): track entities are passed through with
re-keying, the documented fallback defaults being applied whenever the
source field is absent **or falsy** (empty string, zero): qualities take
width/height/bandwidth/videoCodec-else-codecs from their source track,
audio tracks take language and role (role falling back to `main` when
empty), text tracks take language, kind and the primary flag. -/
theorem C5_passthrough (gln : String → Option String)
    (ts : List ShakaVariantTrack) (roles : List ShakaLanguageRole)
    (sts : List ShakaTextTrack) :
    (∀ q ∈ updateQualityTracks ts, ∃ t ∈ ts, hasResolution t = true
      ∧ q.width = (match t.width with
          | none => 0 | some w => if w = 0 then 0 else w)
      ∧ q.height = (match t.height with
          | none => 0 | some h => if h = 0 then 0 else h)
      ∧ q.bitrate = t.bandwidth
      ∧ q.codec = (match t.videoCodec with
          | some c => if c = "" then
              (match t.codecs with
               | some c2 => if c2 = "" then "" else c2
               | none => "")
            else c
          | none =>
              (match t.codecs with
               | some c2 => if c2 = "" then "" else c2
               | none => "")))
    ∧ (∀ j (h : j < (updateAudioTracks gln roles).length),
        ∃ h2 : j < roles.length,
          ((updateAudioTracks gln roles).get ⟨j, h⟩).language
              = (roles.get ⟨j, h2⟩).language
          ∧ ((updateAudioTracks gln roles).get ⟨j, h⟩).kind
              = (if (roles.get ⟨j, h2⟩).role = "" then "main"
                 else (roles.get ⟨j, h2⟩).role))
    ∧ (∀ j (h : j < (updateTextTracks gln sts).length),
        ∃ h2 : j < sts.length,
          ((updateTextTracks gln sts).get ⟨j, h⟩).language
              = (sts.get ⟨j, h2⟩).language
          ∧ ((updateTextTracks gln sts).get ⟨j, h⟩).kind
              = (match (sts.get ⟨j, h2⟩).kind with
                 | none => "subtitles"
                 | some k => if k = "" then "subtitles" else k)
          ∧ ((updateTextTracks gln sts).get ⟨j, h⟩).isDefault
              = (match (sts.get ⟨j, h2⟩).primary with
                 | none => false
                 | some b => b)) := by
  refine ⟨?_, ?_, ?_⟩
  · intro q hq
    have hdef : updateQualityTracks ts
        = mkQualities 0 (sortByHeightDesc (groupByResolution ts)) := rfl
    rw [hdef] at hq
    obtain ⟨t, ht, k, hk⟩ := mem_mkQualities hq
    obtain ⟨hbest, _, _⟩ := sorted_groupByResolution ts
    obtain ⟨hres, htp, _⟩ := hbest t ht
    subst hk
    refine ⟨t, htp, hres, rfl, rfl, jsOrNat_some_zero _, ?_⟩
    show jsOrOptStr t.videoCodec (jsOrOptStr t.codecs "") = _
    cases t.videoCodec <;> cases t.codecs <;>
      simp [jsOrOptStr, jsOrStr]
  · intro j h
    have hlen : (updateAudioTracks gln roles).length = roles.length :=
      mkAudioTracks_length gln roles 0
    have h2 : j < roles.length := hlen ▸ h
    refine ⟨h2, ?_, ?_⟩
    · rw [show (updateAudioTracks gln roles).get ⟨j, h⟩
          = mkAudioTrack gln (0 + j) (roles.get ⟨j, h2⟩)
          from mkAudioTracks_get gln roles 0 j h h2]
      show jsOrStr (roles.get ⟨j, h2⟩).language "" = _
      unfold jsOrStr
      split <;> simp_all
    · rw [show (updateAudioTracks gln roles).get ⟨j, h⟩
          = mkAudioTrack gln (0 + j) (roles.get ⟨j, h2⟩)
          from mkAudioTracks_get gln roles 0 j h h2]
      rfl
  · intro j h
    have hlen : (updateTextTracks gln sts).length = sts.length := by
      simp [updateTextTracks]
    have h2 : j < sts.length := hlen ▸ h
    have hdef : updateTextTracks gln sts = sts.map (mkTextTrack gln) := rfl
    refine ⟨h2, ?_, ?_, ?_⟩
    · simp only [List.get_eq_getElem, hdef, List.getElem_map]
      show jsOrStr sts[j].language "" = _
      unfold jsOrStr
      split <;> simp_all
    · simp only [List.get_eq_getElem, hdef, List.getElem_map]
      show jsOrOptStr sts[j].kind "subtitles" = _
      cases sts[j].kind <;> simp [jsOrOptStr, jsOrStr]
    · simp only [List.get_eq_getElem, hdef, List.getElem_map]
      show jsOrBool sts[j].primary = _
      cases sts[j].primary <;> rfl

/-- Witness for C5: the single audio track built from `emptyRole` has
kind `main` (empty role falls back) and language `en`. -/
theorem C5_passthrough_witness :
    ((updateAudioTracks (fun _ => none) [emptyRole]).get ⟨0, by decide⟩).kind = "main"
    ∧ ((updateAudioTracks (fun _ => none) [emptyRole]).get ⟨0, by decide⟩).language
        = "en" := by
  obtain ⟨h2, hlang, hkind⟩ :=
    (C5_passthrough (fun _ => none) [] [emptyRole] []).2.1 0 (by decide)
  constructor
  · rw [hkind]
    show (if emptyRole.role = "" then "main" else emptyRole.role) = "main"
    decide
  · rw [hlang]
    show emptyRole.language = "en"
    rfl

theorem filter_pd_eq_nil {l : List HostAction}
    (h : ∀ a ∈ l, isPlayerDispatch a = false) :
    l.filter isPlayerDispatch = [] :=
  List.filter_eq_nil_iff.mpr (by simpa using h)

theorem no_pd_updateQualityTracksActions (ip : Bool) (ts : List ShakaVariantTrack)
    (cq : List VideoQuality) :
    ∀ a ∈ updateQualityTracksActions ip ts cq, isPlayerDispatch a = false := by
  intro a ha
  unfold updateQualityTracksActions at ha
  cases ip with
  | false => simp at ha
  | true =>
    simp only [Bool.not_true, Bool.false_eq_true, if_false] at ha
    rcases List.mem_append.mp ha with h1 | h1
    · obtain ⟨q, _, rfl⟩ := List.mem_map.mp h1
      rfl
    · split at h1
      · simp at h1
      · split at h1
        · simp at h1
        · rw [List.mem_singleton.mp h1]
          rfl

theorem no_pd_onBufferingActions (b : Bool) :
    ∀ a ∈ onBufferingActions b, isPlayerDispatch a = false := by
  intro a ha
  unfold onBufferingActions at ha
  split at ha
  · rw [List.mem_singleton.mp ha]; rfl
  · simp at ha

theorem no_pd_onAdaptationActions (nt : Option ShakaVariantTrack) (iv : Bool)
    (cq : List VideoQuality) :
    ∀ a ∈ onAdaptationActions nt iv cq, isPlayerDispatch a = false := by
  intro a ha
  unfold onAdaptationActions at ha
  split at ha
  · simp at ha
  · split at ha
    · simp at ha
    · split at ha
      · simp at ha
      · rw [List.mem_singleton.mp ha]; rfl

theorem no_pd_onTracksChangedActions (ip : Bool) (ts : List ShakaVariantTrack)
    (cq : List VideoQuality) :
    ∀ a ∈ onTracksChangedActions ip ts cq, isPlayerDispatch a = false := by
  intro a ha
  unfold onTracksChangedActions at ha
  split at ha
  · exact no_pd_updateQualityTracksActions ip ts cq a ha
  · simp at ha

theorem no_pd_onLoadedActions (gln : String → Option String) (e : EventCtx) :
    ∀ a ∈ onLoadedActions gln e, isPlayerDispatch a = false := by
  intro a ha
  unfold onLoadedActions at ha
  split at ha
  · simp at ha
  · rcases List.mem_append.mp ha with h1 | h1
    · rcases List.mem_append.mp h1 with h2 | h2
      · rcases List.mem_append.mp h2 with h3 | h3
        · rcases List.mem_append.mp h3 with h4 | h4
          · rcases List.mem_append.mp h4 with h5 | h5
            · rcases List.mem_append.mp h5 with h6 | h6
              · rw [List.mem_singleton.mp h6]; rfl
              · split at h6
                · rw [List.mem_singleton.mp h6]; rfl
                · simp at h6
            · rw [List.mem_singleton.mp h5]; rfl
          · exact no_pd_updateQualityTracksActions _ _ _ a h4
        · obtain ⟨x, _, rfl⟩ := List.mem_map.mp h3
          rfl
      · obtain ⟨x, _, rfl⟩ := List.mem_map.mp h2
        rfl
    · rw [List.mem_singleton.mp h1]; rfl

/-- Claim C6: for every subscribed Shaka event type, handling the event
dispatches exactly one event on the host player, of type `shaka-` +
`camelToKebabCase` of the Shaka type, carrying the original event as
detail; and on the subscribed (all-lowercase) names the kebab-case
translation is the identity. -/
theorem C6_event_translation (gln : String → Option String) :
    (∀ t ∈ forwardedEvents, ∀ e : EventCtx,
      (eventActions gln t e).filter isPlayerDispatch
        = [HostAction.playerDispatch ("shaka-" ++ camelToKebabCase t) e.eventRef])
    ∧ (∀ t ∈ forwardedEvents, camelToKebabCase t = t) := by
  constructor
  · intro t ht e
    unfold eventActions
    rw [if_pos ht]
    simp only [List.filter_append]
    have h1 : (forwarderActions t e).filter isPlayerDispatch
        = [HostAction.playerDispatch (toDOMEventType t) e.eventRef] := rfl
    have h2 : (if t = "adaptation" then
        onAdaptationActions e.newTrack e.newTrackIsVariant e.ctxQualities
          else []).filter isPlayerDispatch = [] := by
      split
      · exact filter_pd_eq_nil (no_pd_onAdaptationActions _ _ _)
      · rfl
    have h3 : (if t = "trackschanged" then
        onTracksChangedActions e.instPresent e.variantTracks e.ctxQualities
          else []).filter isPlayerDispatch = [] := by
      split
      · exact filter_pd_eq_nil (no_pd_onTracksChangedActions _ _ _)
      · rfl
    have h4 : (if t = "loaded" then onLoadedActions gln e
          else []).filter isPlayerDispatch = [] := by
      split
      · exact filter_pd_eq_nil (no_pd_onLoadedActions _ _)
      · rfl
    have h5 : (if t = "buffering" then onBufferingActions e.buffering
          else []).filter isPlayerDispatch = [] := by
      split
      · exact filter_pd_eq_nil (no_pd_onBufferingActions _)
      · rfl
    rw [h1, h2, h3, h4, h5]
    simp [toDOMEventType]
  · intro t ht
    fin_cases ht <;> decide

/-- Witness for C6 at the `buffering` event and a sample event context. -/
theorem C6_event_translation_witness :
    (eventActions (fun _ => none) "buffering" sampleEventCtx).filter isPlayerDispatch
      = [HostAction.playerDispatch "shaka-buffering" 42] := by
  have h := (C6_event_translation (fun _ => none)).1 "buffering" (by decide) sampleEventCtx
  have h2 : ("shaka-" ++ camelToKebabCase "buffering") = "shaka-buffering" := by decide
  rw [h2] at h
  exact h

/-- Claim C7: on a user quality change, nothing is called when the
instance is missing, auto mode is on, or no quality is selected;
otherwise ABR is disabled first and then, if some variant track matches
the selected height, `selectVariantTrack` is called on the first such
track with `clearBuffer` true exactly when the switch mode is
`current`. -/
theorem C7_user_quality_change (instTracks : Option (List ShakaVariantTrack))
    (q : QualitiesState) (chrome : Bool) :
    (instTracks = none → onUserQualityChange instTracks q chrome = [])
    ∧ (q.auto = true → onUserQualityChange instTracks q chrome = [])
    ∧ (q.selected = none → onUserQualityChange instTracks q chrome = [])
    ∧ (∀ ts sel, instTracks = some ts → q.auto = false → q.selected = some sel →
        (onUserQualityChange instTracks q chrome
          = LibCall.configureAbr false ::
            ((match ts.find? (fun t => t.height = some sel.height) with
              | some t => [LibCall.selectVariantTrack t
                  (decide (q.switchMode = "current"))]
              | none => [])
             ++ (if chrome then [LibCall.chromeSeekHack] else [])))
        ∧ (∀ t, ts.find? (fun t2 => t2.height = some sel.height) = some t →
            (onUserQualityChange instTracks q chrome).take 2
              = [LibCall.configureAbr false,
                 LibCall.selectVariantTrack t (decide (q.switchMode = "current"))])
        ∧ (ts.find? (fun t2 => t2.height = some sel.height) = none →
            ∀ t cb, LibCall.selectVariantTrack t cb
              ∉ onUserQualityChange instTracks q chrome)) := by
  refine ⟨?_, ?_, ?_, ?_⟩
  · intro h
    rw [h]
    rfl
  · intro h
    unfold onUserQualityChange
    cases instTracks with
    | none => rfl
    | some ts => rw [h]; rfl
  · intro h
    unfold onUserQualityChange
    cases instTracks with
    | none => rfl
    | some ts =>
      cases hq : q.auto
      · rw [h]
        simp
      · rfl
  · intro ts sel hinst hauto hsel
    subst hinst
    have hmain : onUserQualityChange (some ts) q chrome
        = LibCall.configureAbr false ::
          ((match ts.find? (fun t => t.height = some sel.height) with
            | some t => [LibCall.selectVariantTrack t
                (decide (q.switchMode = "current"))]
            | none => [])
           ++ (if chrome then [LibCall.chromeSeekHack] else [])) := by
      unfold onUserQualityChange
      rw [hauto, hsel]
      rfl
    refine ⟨hmain, ?_, ?_⟩
    · intro t hfind
      rw [hmain, hfind]
      rfl
    · intro hfind t cb hmem
      rw [hmain, hfind] at hmem
      rcases List.mem_cons.mp hmem with h2 | h2
      · exact absurd h2 (by simp)
      · simp at h2

/-- Witness for C7: selecting the 720p quality with switch mode
`current` disables ABR and selects the first 720p variant with
`clearBuffer` true. -/
theorem C7_user_quality_change_witness :
    onUserQualityChange (some sampleTracks)
        { auto := false, selected := some sampleQuality720, switchMode := "current" }
        false
      = [LibCall.configureAbr false,
         LibCall.selectVariantTrack (vtrack 2 1200 (some 1280) (some 720)) true] := by
  obtain ⟨hmain, _, _⟩ := (C7_user_quality_change (some sampleTracks)
    { auto := false, selected := some sampleQuality720, switchMode := "current" }
    false).2.2.2 sampleTracks sampleQuality720 rfl rfl rfl
  rw [hmain]
  decide

/-- Counterexample to claim C8 as stated: the adapter does start a
recurring animation-frame loop of its own — `#liveSync` constructs and
starts a `RAFLoop` whenever the stream is live. -/
theorem C8_concurrency_cex :
    SyncAction.startRafLoop ∈ liveSyncEffect true := by decide

/-- Claim C8 (amended): the only scheduling the adapter itself starts
is the live-sync animation-frame loop, begun exactly when the stream is
live; teardown awaits the library's destroy exactly when an instance
exists and runs the live-sync stop handle exactly when the loop was
started; no other timer or cancellation handle exists in the model. -/
theorem C8_concurrency (live ip lsa : Bool) :
    (SyncAction.startRafLoop ∈ liveSyncEffect live ↔ live = true)
    ∧ liveSyncEffect false = []
    ∧ (SyncAction.stopLiveSync ∈ destroyActions ip lsa ↔ lsa = true)
    ∧ (SyncAction.awaitInstanceDestroy ∈ destroyActions ip lsa ↔ ip = true) := by
  cases live <;> cases ip <;> cases lsa <;> decide

/-- Witness for C8 (amended): with the loop active, destroy runs the
stop handle. -/
theorem C8_concurrency_witness :
    SyncAction.stopLiveSync ∈ destroyActions true true :=
  (C8_concurrency true true true).2.2.1.mpr rfl

/-- Claim C9: filter registration with no instance is a silent no-op
(nothing reaches any networking engine and nothing is stored), while
filters supplied via the config are registered during setup, before the
source is loaded. -/
theorem C9_filter_registration (eng : Bool) (f g : Nat) (cfg : ShakaConfigModel)
    (cbs : List Nat) (s : String) :
    registerRequestFilterCall false eng f = []
    ∧ registerResponseFilterCall false eng g = []
    ∧ (∀ rf, cfg.requestFilter = some rf → eng = true →
        stepPrecedes SetupStep.registerReqFilter (SetupStep.loadSourceStep s)
          (providerSetup cfg cbs eng (some s)) = true)
    ∧ (∀ rs, cfg.responseFilter = some rs → eng = true →
        stepPrecedes SetupStep.registerResFilter (SetupStep.loadSourceStep s)
          (providerSetup cfg cbs eng (some s)) = true) := by
  refine ⟨rfl, rfl, ?_, ?_⟩
  · intro rf hrf heng
    subst heng
    have htrace : providerSetup cfg cbs true (some s) =
        ([SetupStep.loadLibrary, SetupStep.construct]
          ++ forwardedEvents.map SetupStep.addForwardListener
          ++ [SetupStep.addErrorListener]
          ++ cbs.map SetupStep.invokeCallback
          ++ [SetupStep.dispatchInstanceEvent]
          ++ (match cfg.config with
              | some _ => [SetupStep.configure]
              | none => [])
          ++ ((match cfg.requestFilter with
               | some _ => [SetupStep.registerReqFilter]
               | none => [])
              ++ (match cfg.responseFilter with
                  | some _ => [SetupStep.registerResFilter]
                  | none => [])))
        ++ ([SetupStep.addHandlerListener "adaptation",
             SetupStep.addHandlerListener "trackschanged",
             SetupStep.addHandlerListener "loaded",
             SetupStep.addHandlerListener "buffering"]
            ++ [SetupStep.setAutoQualityHook, SetupStep.listenQualityChange,
                SetupStep.listenAudioChange, SetupStep.startLiveSyncEffect]
            ++ [SetupStep.notifyProviderSetup]
            ++ [SetupStep.loadSourceStep s]) := by
      simp [providerSetup, controllerSetup, List.append_assoc]
    rw [htrace]
    refine stepPrecedes_of_mem_mem _ _ ?_ (by simp)
    rw [hrf]
    simp
  · intro rs hrs heng
    subst heng
    have htrace : providerSetup cfg cbs true (some s) =
        ([SetupStep.loadLibrary, SetupStep.construct]
          ++ forwardedEvents.map SetupStep.addForwardListener
          ++ [SetupStep.addErrorListener]
          ++ cbs.map SetupStep.invokeCallback
          ++ [SetupStep.dispatchInstanceEvent]
          ++ (match cfg.config with
              | some _ => [SetupStep.configure]
              | none => [])
          ++ ((match cfg.requestFilter with
               | some _ => [SetupStep.registerReqFilter]
               | none => [])
              ++ (match cfg.responseFilter with
                  | some _ => [SetupStep.registerResFilter]
                  | none => [])))
        ++ ([SetupStep.addHandlerListener "adaptation",
             SetupStep.addHandlerListener "trackschanged",
             SetupStep.addHandlerListener "loaded",
             SetupStep.addHandlerListener "buffering"]
            ++ [SetupStep.setAutoQualityHook, SetupStep.listenQualityChange,
                SetupStep.listenAudioChange, SetupStep.startLiveSyncEffect]
            ++ [SetupStep.notifyProviderSetup]
            ++ [SetupStep.loadSourceStep s]) := by
      simp [providerSetup, controllerSetup, List.append_assoc]
    rw [htrace]
    refine stepPrecedes_of_mem_mem _ _ ?_ (by simp)
    rw [hrs]
    simp

/-- Claim C10: `ShakaProvider.onInstance` invokes the callback
synchronously exactly when an instance exists, always adds the callback
to the set invoked on future setups, and the dispose function removes
it from that set. -/
theorem C10_on_instance (st : ControllerState) (cb : Nat) :
    (st.inst.isSome = true → (providerOnInstance st cb).1 = [cb])
    ∧ (st.inst = none → (providerOnInstance st cb).1 = [])
    ∧ cb ∈ (providerOnInstance st cb).2.callbacks
    ∧ cb ∈ setupCallbackInvocations (providerOnInstance st cb).2
    ∧ cb ∉ (disposeCallback (providerOnInstance st cb).2 cb).callbacks
    ∧ (∀ st2 : ControllerState,
        cb ∉ setupCallbackInvocations (disposeCallback st2 cb)) := by
  have hadd : cb ∈ (providerOnInstance st cb).2.callbacks := by
    show cb ∈ (controllerOnInstance st cb).callbacks
    unfold controllerOnInstance
    split
    · assumption
    · simp
  refine ⟨?_, ?_, hadd, hadd, ?_, ?_⟩
  · intro h
    cases hi : st.inst with
    | none => rw [hi] at h; simp at h
    | some v =>
      show (match st.inst with | some _ => [cb] | none => []) = [cb]
      rw [hi]
  · intro h
    show (match st.inst with | some _ => [cb] | none => []) = []
    rw [h]
  · show cb ∉ ((providerOnInstance st cb).2.callbacks.filter (fun x => x != cb))
    intro hmem
    have h2 := List.of_mem_filter hmem
    simp at h2
  · intro st2
    show cb ∉ (st2.callbacks.filter (fun x => x != cb))
    intro hmem
    have h2 := List.of_mem_filter hmem
    simp at h2

/-- Witness for C10 at a state holding an instance and one prior
callback. -/
theorem C10_on_instance_witness :
    (providerOnInstance sampleState 3).1 = [3]
    ∧ 3 ∈ (providerOnInstance sampleState 3).2.callbacks
    ∧ 3 ∉ (disposeCallback (providerOnInstance sampleState 3).2 3).callbacks := by
  refine ⟨(C10_on_instance sampleState 3).1 (by decide),
    (C10_on_instance sampleState 3).2.2.1,
    (C10_on_instance sampleState 3).2.2.2.2.1⟩

/-- Witness for C9 at a concrete configuration: no-op calls without an
instance, and the request filter registered before the source load. -/
theorem C9_filter_registration_witness :
    registerRequestFilterCall false true 2 = []
    ∧ stepPrecedes SetupStep.registerReqFilter (SetupStep.loadSourceStep "s.mpd")
        (providerSetup sampleCfg [] true (some "s.mpd")) = true := by
  refine ⟨(C9_filter_registration true 2 3 sampleCfg [] "s.mpd").1,
    (C9_filter_registration true 2 3 sampleCfg [] "s.mpd").2.2.1 2 rfl rfl⟩
